import Mathlib

/-!
Shallow embedding of the repo-language-detect pipeline
(alexankitty/repo-language-detect), final package version:
`src/detect_repo_language/analyze.py`, `src/detect-repo-language/cache.py`,
`src/detect-repo-language/language.py`, and the shared constants in the
package `__init__.py`.

Python dicts preserve insertion order, so every mapping is embedded as an
association list; assignment to an existing key updates it in place, a new
key is appended at the end. Python strings are Lean `String`, byte contents
are `List Nat`, sizes and counts are `Nat`, timestamps and expiry seconds
are `Int`, float weights are `Rat`.
-/

/-- Lookup in an insertion-ordered association list: the model of reading a
Python dict (`m[k]` / `m.get(k)`). -/
def lookupAssoc {α : Type} : List (String × α) → String → Option α
  | [], _ => none
  | (k, v) :: rest, key => if k = key then some v else lookupAssoc rest key

/-- Assignment `m[k] = v` on a Python dict: an existing key keeps its
position and gets the new value, a fresh key is appended at the end. -/
def insertAssoc {α : Type} : List (String × α) → String → α → List (String × α)
  | [], key, v => [(key, v)]
  | (k, w) :: rest, key, v =>
    if k = key then (k, v) :: rest else (k, w) :: insertAssoc rest key v

/-- `IGNORE_DIRS` from the package `__init__.py` (the module constant is a
set; only membership is ever used, so a list model is exact). -/
def IGNORE_DIRS : List String :=
  [".git", ".hg", ".svn",
   "node_modules", "vendor", "venv", ".venv", "env", ".env",
   ".cache", ".pytest_cache", "__pycache__", ".egg-info",
   "build", "dist", "target", "out", ".gradle",
   ".idea", ".vscode", ".DS_Store",
   "coverage", ".nyc_output",
   "bin", "obj", "logs", "tmp", "temp",
   "release", "releases",
   ".github", ".gitlab", ".bitbucket",
   ".conda", ".mypy_cache", ".ruff_cache", ".tox",
   "debug", "debug-info", "debug-symbols",
   "bower_components", "jspm_packages"]

/-- `IGNORE_FILES` from the package `__init__.py`. -/
def IGNORE_FILES : List String :=
  [".DS_Store", "Thumbs.db", ".gitignore", ".gitattributes",
   "package-lock.json", "yarn.lock", "poetry.lock", "Gemfile.lock"]

/-- `analyze.should_ignore(path, root)`: iterates over
`path.relative_to(root).parts` testing membership in `IGNORE_DIRS`, then
tests `path.name` (the final component) against `IGNORE_FILES`. A path is
represented by its list of components relative to the root (nonempty for
every entry yielded by `rglob`). -/
def should_ignore (parts : List String) : Bool :=
  parts.any (fun part => IGNORE_DIRS.contains part) ||
    IGNORE_FILES.contains (parts.getLastD (""))

/-- The run-time language configuration: the module globals `FILENAME_MAP`,
`EXTENSION_MAP` and `LANGUAGE_WEIGHTS` populated by `load_language_config`
(read-only for the rest of the run). -/
structure Config where
  filenameMap : List (String × String)
  extensionMap : List (String × String)
  weights : List (String × Rat)

/-- Index of the last occurrence of a dot in a character list (the model of
CPython `name.rfind(chr(46))` used by `PurePath.suffix`). -/
def lastDotIdx : List Char → Option Nat
  | [] => none
  | c :: cs =>
    match lastDotIdx cs with
    | some i => some (i + 1)
    | none => if c = '.' then some 0 else none

/-- `PurePath.suffix` of CPython: the substring from the last dot onward,
but only when that dot is neither the first nor the last character of the
final path component; otherwise the empty string. -/
def pySuffix (name : String) : String :=
  let cs := name.toList
  match lastDotIdx cs with
  | none => ""
  | some i => if 0 < i ∧ i + 1 < cs.length then String.mk (cs.drop i) else ""

/-- ASCII lower-casing of one character (`str.lower` restricted to the
ASCII range, which covers every extension pattern in the configuration). -/
def pyLowerChar (c : Char) : Char :=
  if 'A' ≤ c ∧ c ≤ 'Z' then Char.ofNat (c.toNat + 32) else c

/-- `str.lower()` on a Python string, ASCII range. -/
def pyLower (s : String) : String := String.mk (s.toList.map pyLowerChar)

/-- `analyze.get_file_language(file_path)`: exact filename lookup in
`FILENAME_MAP` first; otherwise the lower-cased `Path.suffix` is looked up
in `EXTENSION_MAP`; otherwise `None`. `name` is `file_path.name`. -/
def get_file_language (cfg : Config) (name : String) : Option String :=
  match lookupAssoc cfg.filenameMap name with
  | some lang => some lang
  | none => lookupAssoc cfg.extensionMap (pyLower (pySuffix name))

/-- The observable outcome of the `stat` and chunked `read` calls that
`count_lines` performs on one file: the size reported by `stat`, the bytes
subsequently read (the code never assumes the two agree — the file may
change in between), and whether the I/O succeeded (`ok = false` models any
`OSError` raised by `stat` or the read, which the code swallows). -/
structure FileData where
  statSize : Nat
  content : List Nat
  ok : Bool

/-- The 10 MiB threshold hard-coded in `count_lines`. -/
def MAX_FILE_SIZE : Nat := 10 * 1024 * 1024

/-- Number of newline bytes in a byte sequence; the chunked loop in
`count_lines` sums `chunk.count(10)` over consecutive chunks, which
telescopes to the count over the whole content. -/
def newlineCount (content : List Nat) : Nat := content.count 10

/-- `analyze.count_lines(file_path)`: 0 on any I/O error, 0 when the stat
size exceeds 10 MiB, otherwise the number of newline bytes read. -/
def count_lines (fd : FileData) : Nat :=
  if fd.ok = false then 0
  else if fd.statSize > MAX_FILE_SIZE then 0
  else newlineCount fd.content

/-- One filesystem entry yielded by `repo_root.rglob(chr(42))`: its path
components relative to the root (nonempty), whether `is_file()` holds, and
the file data seen by `count_lines`. -/
structure FSEntry where
  parts : List String
  isFile : Bool
  file : FileData

/-- `path.name`: the final path component. -/
def entryName (e : FSEntry) : String := e.parts.getLastD ("")

/-- The per-language statistics mapping `language -> (file_count,
line_count)` returned by `analyze_repository` (insertion-ordered). -/
abbrev Stats := List (String × Nat × Nat)

/-- One `defaultdict` update `language_stats[lang][0] += 1;
language_stats[lang][1] += lines`: an existing language is updated in
place, a new language is appended. -/
def addStat : Stats → String → Nat → Stats
  | [], lang, lines => [(lang, 1, lines)]
  | (l, fc, lc) :: rest, lang, lines =>
    if l = lang then (l, fc + 1, lc + lines) :: rest
    else (l, fc, lc) :: addStat rest lang lines

/-- The body of the `rglob` loop in `analyze_repository`: skip ignored
paths, skip non-files, skip unclassified files, otherwise count lines and
accumulate. -/
def analyzeStep (cfg : Config) (stats : Stats) (e : FSEntry) : Stats :=
  if should_ignore e.parts then stats
  else if e.isFile = false then stats
  else
    match get_file_language cfg (entryName e) with
    | none => stats
    | some lang => addStat stats lang (count_lines e.file)

/-- `analyze.analyze_repository(repo_path)`: fold the loop body over every
entry under the root (the final `dict(... tuple(stats) ...)` comprehension
preserves keys, values and order, so it is the identity here). -/
def analyze_repository (cfg : Config) (fs : List FSEntry) : Stats :=
  fs.foldl (analyzeStep cfg) []

/-- `int(x)` of CPython on an exact numeric value: truncation toward
zero. Weights are embedded as exact rationals; the float arithmetic of the
source is modelled exactly. -/
def pyInt (q : Rat) : Int := if 0 ≤ q then ⌊q⌋ else ⌈q⌉

/-- `LANGUAGE_WEIGHTS.get(lang, 1.0)`. -/
def weightOf (cfg : Config) (lang : String) : Rat :=
  (lookupAssoc cfg.weights lang).getD 1

/-- Weighted statistics `language -> (file_count, weighted_line_count)`;
the weighted count is an `int` (it can be negative only for a negative
configured weight). -/
abbrev WStats := List (String × Nat × Int)

/-- `analyze.apply_weights_to_stats(stats)`: a fresh dict built in
iteration order with `(file_count, int(line_count * weight))`. -/
def apply_weights_to_stats (cfg : Config) (stats : Stats) : WStats :=
  stats.map (fun e => (e.1, e.2.1, pyInt ((e.2.2 : Rat) * weightOf cfg e.1)))

/-- The sort key `lambda x: x[1][1]` of `get_primary_language`. -/
def statKey (e : String × Nat × Int) : Int := e.2.2

/-- Stable descending insertion of one entry: the entry goes in front of
the first element whose key is not larger. -/
def orderedInsertDesc (a : String × Nat × Int) : WStats → WStats
  | [] => [a]
  | b :: l => if statKey b ≤ statKey a then a :: b :: l else b :: orderedInsertDesc a l

/-- `sorted(w.items(), key=lambda x: x[1][1], reverse=True)`: a stable
descending sort (insertion sort is stable, matching the guarantee of the
CPython sort with `reverse=True`: entries with equal keys keep their
original relative order). -/
def sortDesc : WStats → WStats
  | [] => []
  | a :: l => orderedInsertDesc a (sortDesc l)

/-- `analyze.get_primary_language(stats)`: the string `None` on an empty
mapping, otherwise the first key of the weighted mapping sorted by weighted
line count descending. -/
def get_primary_language (cfg : Config) (stats : Stats) : String :=
  if stats.isEmpty then ("None")
  else (((sortDesc (apply_weights_to_stats cfg stats)).headD (("None"), 0, 0)).1)

/-- One persisted cache record (`repo_<key>.json`): schema
`_timestamp` / `_repo_path` / `stats`. JSON serialisation of string keys
and integer pairs is exact, and `write` stores each pair as a list which
`read` converts back to a tuple, so `stats` is stored as-is. -/
structure CacheEntry where
  timestamp : Int
  repoPath : String
  stats : Stats

/-- Exception classes that a corrupt cache file can make `cache.read`
raise and that its except clause — `(json.JSONDecodeError, IOError,
KeyError)` — does NOT catch, so they escape `read`. Both fire before the
expiry check: `UnicodeDecodeError` is raised while `json.load` reads
undecodable bytes (it is a `ValueError` but not a `json.JSONDecodeError`),
and `AttributeError` is raised by `cache_data.get(...)` when the parsed
document is not a JSON object (e.g. the file holds a bare array). -/
inductive CacheReadError where
  | unicodeDecodeError
  | attributeError
deriving DecidableEq

/-- The on-disk state of one cache file, classified by how `read` behaves
on it: `corrupt` is a file whose open or parse raises one of the caught
exception types (`json.JSONDecodeError`, `IOError`, `KeyError`) and so
degrades to a cache miss; `raising` is a corrupt file whose read raises an
uncaught type (see `CacheReadError`) that propagates out of `read`;
`entry` is a record of the well-formed shape that `write` produces
(numeric timestamp, stats object of integer pairs). Schema-invalid but
object-shaped documents (e.g. a string `_timestamp` raising `TypeError`
inside the expiry comparison, or bad stats values raising `TypeError` at
`tuple(counts)`) are further uncaught paths, raised at later points of the
control flow, and are not separately modelled. -/
inductive CacheFile where
  | corrupt
  | raising (err : CacheReadError)
  | entry (e : CacheEntry)

/-- The cache directory contents, keyed by the cache key computed by
`get_key` (deterministic for an unchanged repository, so consecutive calls
on the same path use the same key; subprocess-based key derivation itself
is not modelled). -/
abbrev CacheState := List (String × CacheFile)

/-- `cache.write(repo_path, stats)`: overwrite the record under the key
with the current timestamp, resolved path and raw stats; `ok = false`
models an `IOError` (the write is silently skipped). -/
def cache_write (s : CacheState) (key : String) (repoPath : String) (stats : Stats)
    (now : Int) (ok : Bool) : CacheState :=
  if ok then insertAssoc s key (CacheFile.entry ⟨now, repoPath, stats⟩) else s

/-- `cache.read(repo_path, cache_expiry)`: `Except.ok none` (a cache miss)
when the file is missing, when its read raises one of the caught exception
types, or when `cache_expiry > 0` and `now - _timestamp > cache_expiry`
(the entry expired); `Except.ok (some stats)` for a live well-formed
record; `Except.error` when the read raises one of the exception types the
except clause misses. -/
def cache_read (s : CacheState) (key : String) (cacheExpiry : Int) (now : Int) :
    Except CacheReadError (Option Stats) :=
  match lookupAssoc s key with
  | none => Except.ok none
  | some CacheFile.corrupt => Except.ok none
  | some (CacheFile.raising err) => Except.error err
  | some (CacheFile.entry e) =>
    if cacheExpiry > 0 then
      if now - e.timestamp > cacheExpiry then Except.ok none else Except.ok (some e.stats)
    else Except.ok (some e.stats)

/-- `ext.startswith` with a one-character dot prefix: the first character
is a dot. -/
def startsWithDot (s : String) : Bool :=
  match s.toList with
  | [] => false
  | c :: _ => c == '.'

/-- The reverse-index construction step of `load_language_config` for one
pattern (`language.py`, the loop `for ext in extensions`): a pattern
starting with a dot is assigned into `EXTENSION_MAP`, any other pattern
into `FILENAME_MAP`; in both cases the pattern string itself is the key. -/
def addPattern (maps : List (String × String) × List (String × String))
    (ext lang : String) : List (String × String) × List (String × String) :=
  if startsWithDot ext then (insertAssoc maps.1 ext lang, maps.2)
  else (maps.1, insertAssoc maps.2 ext lang)

/-- The full index construction over the loaded records (in sorted load
order): for each record `(language_name, extensions)` every pattern is
inserted by `addPattern`; later records overwrite earlier ones on key
collisions (last-write-wins). Returns `(EXTENSION_MAP, FILENAME_MAP)`. -/
def buildIndices (records : List (String × List String)) :
    List (String × String) × List (String × String) :=
  records.foldl (fun maps r => r.2.foldl (fun m e => addPattern m e r.1) maps) ([], [])

/-- The effect of one `defaultdict` update on a lookup of the same key. -/
def bumpStat (o : Option (Nat × Nat)) (n : Nat) : Option (Nat × Nat) :=
  match o with
  | none => some (1, n)
  | some (fc, lc) => some (fc + 1, lc + n)

/-- An entry survives the walk for language `lang` when it is not ignored,
is a regular file and classifies as `lang` — exactly the conditions under
which the loop body of `analyze_repository` touches the accumulator. -/
def isSurvivor (cfg : Config) (lang : String) (e : FSEntry) : Bool :=
  !should_ignore e.parts && e.isFile &&
    decide (get_file_language cfg (entryName e) = some lang)

/-- Total line count over a list of surviving entries. -/
def sumLines (l : List FSEntry) : Nat := (l.map (fun e => count_lines e.file)).sum

/-- What a run of the walk over `l` does to an accumulator cell that held
`o` before: nothing when no entry survives, otherwise add the number of
survivors to the file count and their lines to the line count. -/
def mergeCounts (o : Option (Nat × Nat)) (l : List FSEntry) : Option (Nat × Nat) :=
  match o, l with
  | o, [] => o
  | none, l => some (l.length, sumLines l)
  | some (fc, lc), l => some (fc + l.length, lc + sumLines l)

/-- Modelled from the words of the specification, for comparison with the
source-derived `pySuffix` only: the extension of a file name as "the
substring from the final dot onward" (empty when the name has no dot). -/
def spec_extension (name : String) : String :=
  let cs := name.toList
  match lastDotIdx cs with
  | none => ""
  | some i => String.mk (cs.drop i)

/-! ### Sanity examples -/

example : should_ignore (["node_modules", "index.js"]) = true := by decide
example : should_ignore (["a", "b.py"]) = false := by decide
example : should_ignore (["build"]) = true := by decide
example : should_ignore (["src", "yarn.lock"]) = true := by decide

example : lastDotIdx ("a.b.c").toList = some 3 := by decide
example : lastDotIdx ("abc").toList = none := by decide

example : pySuffix ("main.PY") = (".PY") := by decide
example : pySuffix ("archive.tar.gz") = (".gz") := by decide
example : pySuffix (".bashrc") = ("") := by decide
example : pySuffix ("trailing.") = ("") := by decide
example : pySuffix ("Makefile") = ("") := by decide

example : pyLower (".PY") = (".py") := by decide
example : pyLower (".tar") = (".tar") := by decide

example :
    get_file_language ⟨[("Makefile", "Make")], [(".py", "Python")], []⟩ ("main.PY")
      = some ("Python") := by decide
example :
    get_file_language ⟨[("Makefile", "Make")], [(".mk", "Make2")], []⟩ ("Makefile")
      = some ("Make") := by decide

example : count_lines ⟨10, [104, 10, 105, 10], true⟩ = 2 := by decide
example : count_lines ⟨15 * 1024 * 1024, [10, 10], true⟩ = 0 := by decide
example : count_lines ⟨4, [10, 10], false⟩ = 0 := by decide

example : pyInt ((5 : Rat) * (1 / 2)) = 2 := by norm_num [pyInt]

example :
    get_primary_language ⟨[], [], [("A", 2), ("B", 1)]⟩ [("A", 2, 100), ("B", 1, 300)]
      = ("B") := by
  simp [get_primary_language, apply_weights_to_stats, weightOf, lookupAssoc, pyInt,
    sortDesc, orderedInsertDesc, statKey]
  norm_num
example :
    get_primary_language ⟨[], [], [("A", 3), ("B", 1)]⟩ [("A", 2, 100), ("B", 1, 300)]
      = ("A") := by
  simp [get_primary_language, apply_weights_to_stats, weightOf, lookupAssoc, pyInt,
    sortDesc, orderedInsertDesc, statKey]
  norm_num

example :
    cache_read (cache_write [] ("k") ("/r") [("Python", 1, 2)] 5 true) ("k") 0 100
      = Except.ok (some [("Python", 1, 2)]) := rfl
example :
    cache_read [(("k"), CacheFile.raising CacheReadError.attributeError)] ("k") 0 100
      = Except.error CacheReadError.attributeError := rfl

example : buildIndices [("C", [".C"])] = ([(".C", "C")], []) := by decide
example : buildIndices [("Make", ["Makefile"])] = ([], [("Makefile", "Make")]) := by decide

/-! ### Supporting lemmas and claim theorems -/

theorem lookupAssoc_insertAssoc_self {α : Type} (m : List (String × α)) (k : String) (v : α) :
    lookupAssoc (insertAssoc m k v) k = some v := by
  induction m with
  | nil => simp [insertAssoc, lookupAssoc]
  | cons hd tl ih =>
    obtain ⟨k', v'⟩ := hd
    by_cases h : k' = k
    · simp [insertAssoc, lookupAssoc, h]
    · simp [insertAssoc, lookupAssoc, h, ih]

theorem lookupAssoc_addStat_self (s : Stats) (lang : String) (n : Nat) :
    lookupAssoc (addStat s lang n) lang = bumpStat (lookupAssoc s lang) n := by
  induction s with
  | nil => simp [addStat, lookupAssoc, bumpStat]
  | cons hd tl ih =>
    obtain ⟨l, fc, lc⟩ := hd
    by_cases h : l = lang
    · simp [addStat, lookupAssoc, h, bumpStat]
    · simp [addStat, lookupAssoc, h, ih]

theorem mergeCounts_cons (o : Option (Nat × Nat)) (e : FSEntry) (l : List FSEntry) :
    mergeCounts o (e :: l) = mergeCounts (bumpStat o (count_lines e.file)) l := by
  cases o with
  | none =>
    cases l with
    | nil => simp [mergeCounts, bumpStat, sumLines]
    | cons e' l' => simp [mergeCounts, bumpStat, sumLines]; omega
  | some p =>
    obtain ⟨fc, lc⟩ := p
    cases l with
    | nil => simp [mergeCounts, bumpStat, sumLines]
    | cons e' l' => simp [mergeCounts, bumpStat, sumLines]; omega

theorem lookupAssoc_addStat_ne (s : Stats) (lang lang' : String) (n : Nat)
    (h : lang' ≠ lang) :
    lookupAssoc (addStat s lang n) lang' = lookupAssoc s lang' := by
  induction s with
  | nil => simp [addStat, lookupAssoc, Ne.symm h]
  | cons hd tl ih =>
    obtain ⟨l, fc, lc⟩ := hd
    by_cases hl : l = lang
    · subst hl
      simp [addStat, lookupAssoc, Ne.symm h]
    · simp [addStat, lookupAssoc, hl, ih]

theorem analyze_foldl_lookup (cfg : Config) (lang : String) (fs : List FSEntry) :
    ∀ stats : Stats,
      lookupAssoc (fs.foldl (analyzeStep cfg) stats) lang =
        mergeCounts (lookupAssoc stats lang) (fs.filter (isSurvivor cfg lang)) := by
  induction fs with
  | nil => intro stats; simp [mergeCounts]
  | cons e fs ih =>
    intro stats
    rw [List.foldl_cons]
    by_cases hs : isSurvivor cfg lang e = true
    · have hparts : (e :: fs).filter (isSurvivor cfg lang)
          = e :: fs.filter (isSurvivor cfg lang) := by
        simp [List.filter_cons, hs]
      have hcomp := hs
      simp only [isSurvivor, Bool.and_eq_true, Bool.not_eq_true',
        decide_eq_true_eq] at hcomp
      obtain ⟨⟨h1, h2⟩, h3⟩ := hcomp
      have hstep : analyzeStep cfg stats e = addStat stats lang (count_lines e.file) := by
        simp [analyzeStep, h1, h2, h3]
      rw [hstep, ih, lookupAssoc_addStat_self, hparts, mergeCounts_cons]
    · have hparts : (e :: fs).filter (isSurvivor cfg lang)
          = fs.filter (isSurvivor cfg lang) := by
        simp [List.filter_cons, hs]
      have hcell : lookupAssoc (analyzeStep cfg stats e) lang = lookupAssoc stats lang := by
        unfold analyzeStep
        by_cases hig : should_ignore e.parts = true
        · simp [hig]
        · simp only [Bool.not_eq_true] at hig
          simp only [hig, Bool.false_eq_true, if_false]
          by_cases hf : e.isFile = false
          · simp [hf]
          · simp only [Bool.not_eq_false] at hf
            simp only [hf, if_neg (by simp : ¬(true = false))]
            cases hcl : get_file_language cfg (entryName e) with
            | none => rfl
            | some lang' =>
              have hne : lang ≠ lang' := by
                intro hEq
                exact hs (by simp [isSurvivor, hig, hf, hcl, hEq])
              exact lookupAssoc_addStat_ne stats lang' lang (count_lines e.file) hne
      rw [ih, hcell, hparts]

/-- C1: for every repository tree, the mapping returned by
`analyze_repository` holds only unweighted counts: for each language the
file count is the number of surviving classified files of that language,
the raw line count is the sum of their per-file line counts, and no weight
multiplier enters at any point (the result is independent of the weight
configuration). -/
theorem analyze_repository_counts_unweighted (cfg : Config) (fs : List FSEntry)
    (lang : String) :
    (lookupAssoc (analyze_repository cfg fs) lang =
      (if (fs.filter (isSurvivor cfg lang)).isEmpty then none
       else some ((fs.filter (isSurvivor cfg lang)).length,
         sumLines (fs.filter (isSurvivor cfg lang))))) ∧
    (∀ w' : List (String × Rat),
      analyze_repository ⟨cfg.filenameMap, cfg.extensionMap, w'⟩ fs
        = analyze_repository cfg fs) := by
  constructor
  · rw [analyze_repository, analyze_foldl_lookup]
    cases fs.filter (isSurvivor cfg lang) with
    | nil => simp [mergeCounts, lookupAssoc]
    | cons e l => simp [mergeCounts, lookupAssoc]
  · intro w'
    have hstep : analyzeStep ⟨cfg.filenameMap, cfg.extensionMap, w'⟩ = analyzeStep cfg := by
      funext stats e
      simp [analyzeStep, get_file_language]
    rw [analyze_repository, analyze_repository, hstep]

theorem length_orderedInsertDesc (a : String × Nat × Int) (l : WStats) :
    (orderedInsertDesc a l).length = l.length + 1 := by
  induction l with
  | nil => rfl
  | cons b t ih =>
    by_cases h : statKey b ≤ statKey a <;> simp [orderedInsertDesc, h, ih]

theorem length_sortDesc (l : WStats) : (sortDesc l).length = l.length := by
  induction l with
  | nil => rfl
  | cons a t ih => simp [sortDesc, length_orderedInsertDesc, ih]

/-- The head of the stable descending sort is the first element of the
original list attaining the maximal key: the list splits around the head,
everything is bounded by its key, and everything strictly before it in the
original order is strictly below its key. -/
theorem sortDesc_head_firstMax (l : WStats) :
    ∀ hd tl, sortDesc l = hd :: tl →
      ∃ l₁ l₂, l = l₁ ++ hd :: l₂ ∧ (∀ e ∈ l, statKey e ≤ statKey hd) ∧
        ∀ e ∈ l₁, statKey e < statKey hd := by
  induction l with
  | nil => intro hd tl h; simp [sortDesc] at h
  | cons a t ih =>
    intro hd tl h
    rw [sortDesc] at h
    cases ht : sortDesc t with
    | nil =>
      have ht0 : t = [] := by
        have hlen := length_sortDesc t
        rw [ht] at hlen
        exact List.length_eq_zero.mp hlen.symm
      rw [ht] at h
      simp only [orderedInsertDesc] at h
      injection h with h1 h2
      subst h1
      exact ⟨[], [], by simp [ht0], by simp [ht0], by simp⟩
    | cons b s =>
      rw [ht] at h
      obtain ⟨t₁, t₂, hdec, hmax, hpre⟩ := ih b s ht
      by_cases hba : statKey b ≤ statKey a
      · rw [orderedInsertDesc, if_pos hba] at h
        injection h with h1 h2
        subst h1
        refine ⟨[], t, rfl, ?_, by simp⟩
        intro e he
        rcases List.mem_cons.mp he with rfl | he
        · exact le_refl _
        · exact le_trans (hmax e he) hba
      · rw [orderedInsertDesc, if_neg hba] at h
        have hab : statKey a < statKey b := lt_of_not_le hba
        injection h with h1 h2
        subst h1
        refine ⟨a :: t₁, t₂, by simp [hdec], ?_, ?_⟩
        · intro e he
          rcases List.mem_cons.mp he with rfl | he
          · exact le_of_lt hab
          · exact hmax e he
        · intro e he
          rcases List.mem_cons.mp he with rfl | he
          · exact hab
          · exact hpre e he

/-- C2: `get_primary_language` returns the sentinel string `None` on an
empty mapping; on a nonempty mapping it returns a language whose weighted
line count `int(raw * weight)` is maximal, and on ties the first language
in the insertion order of the mapping (weighting preserves keys and their
order, and every entry placed before the returned one carries a strictly
smaller weighted count). -/
theorem get_primary_language_spec (cfg : Config) (stats : Stats) :
    (stats = [] → get_primary_language cfg stats = ("None")) ∧
    (stats ≠ [] →
      ((apply_weights_to_stats cfg stats).map (fun e => e.1)
          = stats.map (fun e => e.1)) ∧
      ∃ l₁ l₂ fc lc,
        apply_weights_to_stats cfg stats
            = l₁ ++ (get_primary_language cfg stats, fc, lc) :: l₂ ∧
        (∀ e ∈ apply_weights_to_stats cfg stats, statKey e ≤ lc) ∧
        (∀ e ∈ l₁, statKey e < lc)) := by
  constructor
  · intro h; subst h; rfl
  · intro hne
    constructor
    · simp [apply_weights_to_stats, List.map_map]
    · have hw : apply_weights_to_stats cfg stats ≠ [] := by
        simp [apply_weights_to_stats, hne]
      cases hsort : sortDesc (apply_weights_to_stats cfg stats) with
      | nil =>
        exfalso
        have hlen := length_sortDesc (apply_weights_to_stats cfg stats)
        rw [hsort] at hlen
        exact hw (List.length_eq_zero.mp hlen.symm)
      | cons hd tl =>
        obtain ⟨l₁, l₂, hdec, hmax, hpre⟩ := sortDesc_head_firstMax _ hd tl hsort
        have hie : stats.isEmpty = false := by
          cases stats with
          | nil => exact absurd rfl hne
          | cons a t => rfl
        have hprim : get_primary_language cfg stats = hd.1 := by
          rw [get_primary_language, hie]
          simp [hsort]
        refine ⟨l₁, l₂, hd.2.1, hd.2.2, ?_, ?_, ?_⟩
        · rw [hprim]
          exact hdec
        · exact hmax
        · exact hpre

theorem get_primary_language_spec_witness :
    get_primary_language ⟨[], [], []⟩ [] = ("None") ∧
    (∃ l₁ l₂ fc lc,
      apply_weights_to_stats ⟨[], [], [(("A"), 3), (("B"), 1)]⟩
          [(("A"), 2, 100), (("B"), 1, 300)]
          = l₁ ++ (get_primary_language ⟨[], [], [(("A"), 3), (("B"), 1)]⟩
              [(("A"), 2, 100), (("B"), 1, 300)], fc, lc) :: l₂ ∧
        (∀ e ∈ apply_weights_to_stats ⟨[], [], [(("A"), 3), (("B"), 1)]⟩
            [(("A"), 2, 100), (("B"), 1, 300)], statKey e ≤ lc) ∧
        (∀ e ∈ l₁, statKey e < lc)) :=
  ⟨(get_primary_language_spec ⟨[], [], []⟩ []).1 rfl,
   ((get_primary_language_spec ⟨[], [], [(("A"), 3), (("B"), 1)]⟩
      [(("A"), 2, 100), (("B"), 1, 300)]).2 (by simp)).2⟩

theorem lookupAssoc_map_entry {α β : Type} (f : String → α → β)
    (m : List (String × α)) (k : String) :
    lookupAssoc (m.map (fun e => (e.1, f e.1 e.2))) k = (lookupAssoc m k).map (f k) := by
  induction m with
  | nil => rfl
  | cons hd tl ih =>
    obtain ⟨k', v⟩ := hd
    by_cases h : k' = k
    · subst h; simp [lookupAssoc]
    · simp [lookupAssoc, h, ih]

/-- C3: `apply_weights_to_stats` maps every entry `(fc, r)` for language `L`
to `(fc, int(r * w))` where `w` is the configured weight of `L`, defaulting
to 1 when none is configured; the keys and their order are untouched (the
result is a fresh mapping; the input cannot be mutated in this functional
model, matching the source, which only reads `stats`). -/
theorem apply_weights_to_stats_spec (cfg : Config) (stats : Stats) (lang : String)
    (fc r : Nat) (h : lookupAssoc stats lang = some (fc, r)) :
    lookupAssoc (apply_weights_to_stats cfg stats) lang
        = some (fc, pyInt ((r : Rat) * weightOf cfg lang)) ∧
    (lookupAssoc cfg.weights lang = none → weightOf cfg lang = 1) ∧
    ((apply_weights_to_stats cfg stats).map (fun e => e.1)
        = stats.map (fun e => e.1)) := by
  refine ⟨?_, ?_, ?_⟩
  · have hm := lookupAssoc_map_entry
      (fun k (v : Nat × Nat) => (v.1, pyInt ((v.2 : Rat) * weightOf cfg k))) stats lang
    rw [h] at hm
    exact hm
  · intro h0
    simp [weightOf, h0]
  · simp [apply_weights_to_stats, List.map_map]

theorem apply_weights_to_stats_spec_witness :
    lookupAssoc (apply_weights_to_stats ⟨[], [], [(("Markdown"), 1/2)]⟩
        [(("Markdown"), 3, 5)]) ("Markdown")
      = some (3, pyInt ((5 : Rat) * weightOf ⟨[], [], [(("Markdown"), 1/2)]⟩ ("Markdown"))) ∧
    pyInt ((5 : Rat) * weightOf ⟨[], [], [(("Markdown"), 1/2)]⟩ ("Markdown")) = 2 :=
  ⟨(apply_weights_to_stats_spec ⟨[], [], [(("Markdown"), 1/2)]⟩ [(("Markdown"), 3, 5)]
      ("Markdown") 3 5 (by simp [lookupAssoc])).1,
   by
    simp [weightOf, lookupAssoc, pyInt]
    norm_num⟩

/-- C4, counterexample: for the dotfile name `.bashrc` the claim's
extension — the lower-cased substring from the final dot onward — is
`.bashrc` itself, and with an extension index containing `.bashrc` and an
empty filename index the claim predicts a match; the code instead uses
CPython `Path.suffix`, which is empty for a dotfile, and returns `None`. -/
theorem get_file_language_dotfile_counterexample :
    pyLower (spec_extension (".bashrc")) = (".bashrc") ∧
    lookupAssoc [((".bashrc"), ("Shell"))] (".bashrc") = some ("Shell") ∧
    lookupAssoc ([] : List (String × String)) (".bashrc") = none ∧
    get_file_language ⟨[], [((".bashrc"), ("Shell"))], []⟩ (".bashrc") = none := by
  refine ⟨by decide, by decide, by decide, by decide⟩

/-- C4 (amended): `get_file_language` first returns the exact filename
match from the filename index when one exists (so a file named `Makefile`
classifies by the filename index even when extension mappings for other
languages exist); otherwise it looks up the lower-cased CPython
`Path.suffix` — the substring from the final dot onward only when that dot
is neither the first nor the last character of the name, else empty — in
the extension index; a file for which this yields `None` contributes to no
language's statistics. -/
theorem get_file_language_spec (cfg : Config) (name : String) :
    (∀ lang, lookupAssoc cfg.filenameMap name = some lang →
        get_file_language cfg name = some lang) ∧
    (lookupAssoc cfg.filenameMap name = none →
        get_file_language cfg name
          = lookupAssoc cfg.extensionMap (pyLower (pySuffix name))) ∧
    (∀ stats (e : FSEntry), entryName e = name →
        get_file_language cfg name = none → analyzeStep cfg stats e = stats) := by
  refine ⟨?_, ?_, ?_⟩
  · intro lang h
    simp [get_file_language, h]
  · intro h
    simp [get_file_language, h]
  · intro stats e hn h
    unfold analyzeStep
    rw [hn, h]
    by_cases hig : should_ignore e.parts = true
    · simp [hig]
    · by_cases hf : e.isFile = false
      · simp [hig, hf]
      · simp [hig, hf]

theorem get_file_language_spec_witness :
    get_file_language ⟨[(("Makefile"), ("Make"))], [((".mk"), ("Mk")), ((".py"), ("Python"))], []⟩
        ("Makefile") = some ("Make") ∧
    get_file_language ⟨[(("Makefile"), ("Make"))], [((".mk"), ("Mk")), ((".py"), ("Python"))], []⟩
        ("main.PY")
      = lookupAssoc [((".mk"), ("Mk")), ((".py"), ("Python"))] (pyLower (pySuffix ("main.PY"))) ∧
    analyzeStep ⟨[], [], []⟩ [] ⟨[("README")], true, ⟨3, [10], true⟩⟩ = [] :=
  ⟨(get_file_language_spec ⟨[(("Makefile"), ("Make"))],
      [((".mk"), ("Mk")), ((".py"), ("Python"))], []⟩ ("Makefile")).1 ("Make") (by decide),
   (get_file_language_spec ⟨[(("Makefile"), ("Make"))],
      [((".mk"), ("Mk")), ((".py"), ("Python"))], []⟩ ("main.PY")).2.1 (by decide),
   (get_file_language_spec ⟨[], [], []⟩ ("README")).2.2 []
      ⟨[("README")], true, ⟨3, [10], true⟩⟩ (by decide) (by decide)⟩

/-- C5: `should_ignore` is true exactly when some component of the path
relative to the root lies in the ignored-directory set or the final
component lies in the ignored-filename set; consequently an entry anywhere
beneath a `node_modules` directory contributes nothing to the analysis. -/
theorem should_ignore_spec (parts : List String) :
    (should_ignore parts = true ↔
      (∃ part ∈ parts, part ∈ IGNORE_DIRS) ∨ parts.getLastD ("") ∈ IGNORE_FILES) ∧
    (∀ (cfg : Config) (fs1 fs2 : List FSEntry) (e : FSEntry),
      ("node_modules") ∈ e.parts →
      analyze_repository cfg (fs1 ++ e :: fs2) = analyze_repository cfg (fs1 ++ fs2)) := by
  constructor
  · simp [should_ignore, List.any_eq_true]
  · intro cfg fs1 fs2 e hmem
    have hig : should_ignore e.parts = true := by
      simp only [should_ignore, Bool.or_eq_true, List.any_eq_true]
      exact Or.inl ⟨("node_modules"), hmem, by decide⟩
    have hstep : ∀ stats, analyzeStep cfg stats e = stats := by
      intro stats
      simp [analyzeStep, hig]
    simp [analyze_repository, List.foldl_append, hstep]

theorem should_ignore_spec_witness :
    should_ignore ([("node_modules"), ("index.js")]) = true ∧
    analyze_repository ⟨[], [((".js"), ("JavaScript"))], []⟩
        [⟨[("node_modules"), ("index.js")], true, ⟨5, [10], true⟩⟩]
      = analyze_repository ⟨[], [((".js"), ("JavaScript"))], []⟩ [] :=
  ⟨(should_ignore_spec [("node_modules"), ("index.js")]).1.mpr
      (Or.inl ⟨("node_modules"), by decide, by decide⟩),
   by
    have h := (should_ignore_spec [("node_modules"), ("index.js")]).2
      ⟨[], [((".js"), ("JavaScript"))], []⟩ [] []
      ⟨[("node_modules"), ("index.js")], true, ⟨5, [10], true⟩⟩ (by decide)
    simpa using h⟩

/-- C6: `count_lines` returns the number of newline bytes it reads; any
file whose stat size exceeds 10 MiB yields 0, and such a file still adds 1
to its language's file count and 0 to its raw line count in the
aggregator; any I/O error yields 0 and is never propagated. -/
theorem count_lines_spec :
    (∀ fd : FileData, fd.ok = true → fd.statSize ≤ MAX_FILE_SIZE →
        count_lines fd = newlineCount fd.content) ∧
    (∀ fd : FileData, MAX_FILE_SIZE < fd.statSize → count_lines fd = 0) ∧
    (∀ fd : FileData, fd.ok = false → count_lines fd = 0) ∧
    (∀ (cfg : Config) (e : FSEntry) (lang : String),
      should_ignore e.parts = false → e.isFile = true →
      get_file_language cfg (entryName e) = some lang →
      MAX_FILE_SIZE < e.file.statSize →
      analyze_repository cfg [e] = [(lang, 1, 0)]) := by
  refine ⟨?_, ?_, ?_, ?_⟩
  · intro fd hok hsize
    simp [count_lines, hok, Nat.not_lt.mpr hsize]
  · intro fd hsize
    by_cases hok : fd.ok = false
    · simp [count_lines, hok]
    · simp [count_lines, hok, hsize]
  · intro fd hok
    simp [count_lines, hok]
  · intro cfg e lang hig hf hcl hsize
    have hcount : count_lines e.file = 0 := by
      by_cases hok : e.file.ok = false
      · simp [count_lines, hok]
      · simp [count_lines, hok, hsize]
    simp [analyze_repository, analyzeStep, hig, hf, hcl, hcount, addStat]

theorem count_lines_spec_witness :
    count_lines ⟨12, [104, 10, 10], true⟩ = newlineCount [104, 10, 10] ∧
    count_lines ⟨15 * 1024 * 1024, [10, 10], true⟩ = 0 ∧
    count_lines ⟨12, [10, 10], false⟩ = 0 ∧
    analyze_repository ⟨[], [((".py"), ("Python"))], []⟩
        [⟨[("big.py")], true, ⟨15 * 1024 * 1024, [10, 10], true⟩⟩]
      = [(("Python"), 1, 0)] :=
  ⟨count_lines_spec.1 ⟨12, [104, 10, 10], true⟩ rfl (by decide),
   count_lines_spec.2.1 ⟨15 * 1024 * 1024, [10, 10], true⟩ (by decide),
   count_lines_spec.2.2.1 ⟨12, [10, 10], false⟩ rfl,
   count_lines_spec.2.2.2 ⟨[], [((".py"), ("Python"))], []⟩
      ⟨[("big.py")], true, ⟨15 * 1024 * 1024, [10, 10], true⟩⟩ ("Python")
      (by decide) rfl (by decide) (by decide)⟩

/-- C7: writing a stats mapping and immediately reading it back with
expiry 0 (never expire) returns the same mapping — the persisted record
stores the raw stats unchanged, `get_key` is deterministic over an
unchanged repository so both calls address the same record, and the
stored-as-lists pairs convert back to the identical tuples. The write is
the successful one (`ok = true`); a failed write is silently skipped by
the source and persists nothing. -/
theorem cache_write_read_roundtrip (s : CacheState) (key repoPath : String)
    (stats : Stats) (now nowRead : Int) :
    cache_read (cache_write s key repoPath stats now true) key 0 nowRead
      = Except.ok (some stats) := by
  simp [cache_write, cache_read, lookupAssoc_insertAssoc_self]

/-- C8, counterexample, refuting the claim at two points. First, with a
stored entry of timestamp 0, current time 10 and expiry −1, the claim's
condition (expiry equal to 0, or age at most expiry) is false, so the
claim demands a miss; the code only tests `cache_expiry > 0` and returns
the stored mapping. Second, the claim says a corrupt cache file returns
no entry and never raises; a cache file of undecodable bytes makes
`json.load` raise `UnicodeDecodeError`, which the except clause
`(json.JSONDecodeError, IOError, KeyError)` does not catch, and the
exception escapes `read`. -/
theorem cache_read_claim_counterexample :
    cache_read [(("k"), CacheFile.entry ⟨0, ("/repo"), [(("Python"), 1, 2)]⟩)]
        ("k") (-1) 10 = Except.ok (some [(("Python"), 1, 2)]) ∧
    ¬(((-1 : Int) = 0) ∨ ((10 : Int) - 0 ≤ -1)) ∧
    cache_read [(("k"), CacheFile.raising CacheReadError.unicodeDecodeError)]
        ("k") 0 10 = Except.error CacheReadError.unicodeDecodeError := by
  refine ⟨rfl, by decide, rfl⟩

/-- C8 (amended): `cache_read` returns the stored raw-stat mapping exactly
when a well-formed record exists for the key and either the expiry is not
positive (0 means never expire, and any non-positive value behaves the
same) or the age `now - timestamp` is at most the expiry. A missing file,
a corrupt file whose read raises one of the caught exception types
(`json.JSONDecodeError`, `IOError`, `KeyError`) and an expired record
degrade to a miss; but a corrupt file whose read raises an exception type
the except clause misses (undecodable bytes, a non-object JSON document)
propagates that exception out of `read` — `read` is not raise-free. -/
theorem cache_read_spec (s : CacheState) (key : String) (expiry now : Int)
    (stats : Stats) :
    (cache_read s key expiry now = Except.ok (some stats) ↔
      ∃ e : CacheEntry, lookupAssoc s key = some (CacheFile.entry e) ∧
        stats = e.stats ∧ (expiry ≤ 0 ∨ now - e.timestamp ≤ expiry)) ∧
    (cache_read s key expiry now = Except.ok none ↔
      (lookupAssoc s key = none ∨ lookupAssoc s key = some CacheFile.corrupt ∨
        ∃ e : CacheEntry, lookupAssoc s key = some (CacheFile.entry e) ∧
          0 < expiry ∧ expiry < now - e.timestamp)) ∧
    (∀ err : CacheReadError, cache_read s key expiry now = Except.error err ↔
      lookupAssoc s key = some (CacheFile.raising err)) := by
  rw [cache_read]
  cases h : lookupAssoc s key with
  | none => simp
  | some file =>
    cases file with
    | corrupt => simp
    | raising err0 => simp
    | entry e =>
      have hred : (match some (CacheFile.entry e) with
          | none => (Except.ok none : Except CacheReadError (Option Stats))
          | some CacheFile.corrupt => Except.ok none
          | some (CacheFile.raising err) => Except.error err
          | some (CacheFile.entry e) =>
            if expiry > 0 then
              if now - e.timestamp > expiry then Except.ok none
              else Except.ok (some e.stats)
            else Except.ok (some e.stats))
          = (if expiry > 0 then
              if now - e.timestamp > expiry then Except.ok none
              else Except.ok (some e.stats)
             else Except.ok (some e.stats)) := rfl
      rw [hred]
      by_cases hexp : expiry > 0
      · by_cases hage : now - e.timestamp > expiry
        · rw [if_pos hexp, if_pos hage]
          refine ⟨by simp; intro h1; omega, by simp; omega, by simp⟩
        · rw [if_pos hexp, if_neg hage]
          refine ⟨?_, ?_, by simp⟩
          · simp
            constructor
            · intro h1
              exact ⟨h1.symm, Or.inr (by omega)⟩
            · intro h1
              exact h1.1.symm
          · simp
            intro h1
            omega
      · rw [if_neg hexp]
        refine ⟨?_, ?_, by simp⟩
        · simp
          constructor
          · intro h1
            exact ⟨h1.symm, Or.inl (by omega)⟩
          · intro h1
            exact h1.1.symm
        · simp
          intro h1
          omega

/-- C9, counterexample: loading a record whose pattern is `.C` puts the
key `.C` into the extension index unchanged; the lower-cased form `.c`,
which the claim says is inserted, is not a key of the index. -/
theorem load_pattern_lowercase_counterexample :
    buildIndices [(("C"), [(".C")])] = ([((".C"), ("C"))], []) ∧
    pyLower ((".C")) = (".c") ∧
    lookupAssoc (buildIndices [(("C"), [(".C")])]).1 ((".c")) = none ∧
    lookupAssoc (buildIndices [(("C"), [(".C")])]).1 ((".C")) = some ("C") := by
  refine ⟨by decide, by decide, by decide, by decide⟩

/-- C9 (amended): during load, every match pattern that starts with a dot
is inserted into the extension index unchanged (no lower-casing happens at
load time), and every pattern not starting with a dot is inserted into the
filename index unchanged; lower-casing is applied only at classification
time, to the file's suffix. -/
theorem addPattern_spec (m : List (String × String) × List (String × String))
    (ext lang : String) :
    (startsWithDot ext = true →
      addPattern m ext lang = (insertAssoc m.1 ext lang, m.2) ∧
      lookupAssoc (addPattern m ext lang).1 ext = some lang) ∧
    (startsWithDot ext = false →
      addPattern m ext lang = (m.1, insertAssoc m.2 ext lang) ∧
      lookupAssoc (addPattern m ext lang).2 ext = some lang) := by
  constructor
  · intro h
    refine ⟨by simp [addPattern, h], by simp [addPattern, h, lookupAssoc_insertAssoc_self]⟩
  · intro h
    refine ⟨by simp [addPattern, h], by simp [addPattern, h, lookupAssoc_insertAssoc_self]⟩

theorem addPattern_spec_witness :
    addPattern ([], []) ((".py")) (("Python")) = ([((".py"), ("Python"))], []) ∧
    lookupAssoc (addPattern ([], []) ((".py")) (("Python"))).1 ((".py")) = some ("Python") ∧
    addPattern ([], []) (("Makefile")) (("Make")) = ([], [(("Makefile"), ("Make"))]) ∧
    lookupAssoc (addPattern ([], []) (("Makefile")) (("Make"))).2 (("Makefile"))
      = some ("Make") :=
  ⟨((addPattern_spec ([], []) (".py") ("Python")).1 (by decide)).1,
   ((addPattern_spec ([], []) (".py") ("Python")).1 (by decide)).2,
   ((addPattern_spec ([], []) ("Makefile") ("Make")).2 (by decide)).1,
   ((addPattern_spec ([], []) ("Makefile") ("Make")).2 (by decide)).2⟩

theorem getLastD_mem (l : List String) : ∀ d : String, l ≠ [] → l.getLastD d ∈ l := by
  induction l with
  | nil => intro d h; exact absurd rfl h
  | cons a t ih =>
    intro d h
    cases t with
    | nil => simp
    | cons b t' =>
      rw [List.getLastD_cons]
      exact List.mem_cons_of_mem a (ih a (by simp))

/-- C10: the ignored-directory name check applies to every path component,
the final one included, regardless of file kind: an entry whose own final
name lies in `IGNORE_DIRS` (for example a regular file named `build`
directly under the root) is ignored, and the walk leaves the statistics
untouched for it even when it is a file. -/
theorem should_ignore_final_component_dir_name (parts : List String) (name : String)
    (h1 : parts.getLastD ("") = name) (h2 : name ∈ IGNORE_DIRS) :
    should_ignore parts = true ∧
    ∀ (cfg : Config) (stats : Stats) (e : FSEntry), e.parts = parts →
      analyzeStep cfg stats e = stats := by
  have hne : parts ≠ [] := by
    intro h0
    rw [h0] at h1
    rw [← h1] at h2
    exact absurd h2 (by decide)
  have hmem : name ∈ parts := h1 ▸ getLastD_mem parts ("") hne
  have hig : should_ignore parts = true := by
    simp only [should_ignore, Bool.or_eq_true, List.any_eq_true]
    refine Or.inl ⟨name, hmem, ?_⟩
    simpa using h2
  refine ⟨hig, ?_⟩
  intro cfg stats e he
  simp [analyzeStep, he, hig]

theorem should_ignore_final_component_witness :
    should_ignore ([("build")]) = true ∧
    analyzeStep ⟨[], [], []⟩ [] ⟨[("build")], true, ⟨3, [10], true⟩⟩ = [] :=
  ⟨(should_ignore_final_component_dir_name [("build")] ("build") (by decide) (by decide)).1,
   (should_ignore_final_component_dir_name [("build")] ("build") (by decide) (by decide)).2
     ⟨[], [], []⟩ [] ⟨[("build")], true, ⟨3, [10], true⟩⟩ rfl⟩
